import Mathlib

/-!
Shallow embedding of the fuzzy-search pipeline in src/app.js (a Slack
assistant bot).  JS strings are modelled as lists of characters, the LLM
completion service and the Slack search API as oracles supplied in an
environment, and the fuzzy-search branch of the userMessage handler as a
pure function from that environment and the message text to its
observable behaviour (which messages are composed, which external calls
are made).
-/

/-- JS strings are modelled as lists of characters, so that split, trim
and substring become list operations. -/
abbrev Str := List Char

/-- Embed a Lean string literal as a character list. -/
def str (s : String) : Str := s.toList

/-- One Slack search match as used by the pipeline: only text and
permalink are ever read by the code. -/
structure MessageHit where
  text : Str
  permalink : Str
deriving DecidableEq

/-- Whitespace characters recognised by the model of the JS trim. -/
def isWS (c : Char) : Bool := c == ' ' || c == '\t' || c == '\n' || c == '\r'

/-- Model of String.prototype.trim: drop whitespace at both ends. -/
def jsTrim (s : Str) : Str := ((s.dropWhile isWS).reverse.dropWhile isWS).reverse

/-- Model of the JS split on single-character separators (one chunk
boundary at every occurrence of a character satisfying p, as in
text.split with a plain one-character pattern). -/
def splitAny (p : Char → Bool) : Str → List Str
  | [] => [[]]
  | c :: cs =>
    if p c then [] :: splitAny p cs
    else
      match splitAny p cs with
      | [] => [[c]]
      | t :: ts => (c :: t) :: ts

/-- text.split with a one-character separator string. -/
def splitChar (sep : Char) (s : Str) : List Str := splitAny (fun c => c == sep) s

/-- Drop the empty chunks strictly between the first and the last chunk
of a split.  A run of k adjacent separators produces exactly k - 1 empty
chunks in that interior region, so composing this with splitAny models a
JS split on a character class with a plus quantifier, which treats a
whole separator run as one boundary but keeps a leading or trailing
empty chunk. -/
def collapseInner : List Str → List Str
  | [] => []
  | t :: rest =>
    match rest with
    | [] => [t]
    | _ :: _ => if t = [] then collapseInner rest else t :: collapseInner rest

/-- Keep the first chunk unconditionally and collapse interior empties. -/
def collapseEmpty : List Str → List Str
  | [] => []
  | t :: rest =>
    match rest with
    | [] => [t]
    | _ :: _ => t :: collapseInner rest

/-- Model of a split on a regex character class with a plus quantifier,
as used at line 224 of src/app.js. -/
def splitPlus (p : Char → Bool) (s : Str) : List Str := collapseEmpty (splitAny p s)

/-- Value of a decimal digit character, none otherwise. -/
def digitVal (c : Char) : Option Nat :=
  if '0' ≤ c ∧ c ≤ '9' then some (c.toNat - 48) else none

/-- Value of a hexadecimal digit character, none otherwise. -/
def hexVal (c : Char) : Option Nat :=
  if '0' ≤ c ∧ c ≤ '9' then some (c.toNat - 48)
  else if 'a' ≤ c ∧ c ≤ 'f' then some (c.toNat - 87)
  else if 'A' ≤ c ∧ c ≤ 'F' then some (c.toNat - 55)
  else none

/-- Longest digit prefix of s in the given base; none when the prefix is
empty (this is how parseInt yields NaN). -/
def parseDigits (base : Nat) (val : Char → Option Nat) (s : Str) : Option Nat :=
  let ds := s.takeWhile (fun c => (val c).isSome)
  if ds = [] then none
  else some (ds.foldl (fun a c => base * a + (val c).getD 0) 0)

/-- Unsigned part of JS parseInt with no radix argument: a 0x or 0X
prefix selects hexadecimal, otherwise the decimal digit prefix is
taken. -/
def parseUnsigned : Str → Option Nat
  | '0' :: 'x' :: rest => parseDigits 16 hexVal rest
  | '0' :: 'X' :: rest => parseDigits 16 hexVal rest
  | s => parseDigits 10 digitVal s

/-- Model of JS parseInt on an already-trimmed string (the code always
trims the token first): an optional sign followed by the unsigned part;
none models NaN. -/
def parseIntJS : Str → Option Int
  | '-' :: rest => (parseUnsigned rest).map (fun n => -(n : Int))
  | '+' :: rest => (parseUnsigned rest).map (fun n => (n : Int))
  | s => (parseUnsigned s).map (fun n => (n : Int))

/-- Lines 223-226: the expansion response is split on newlines and
commas (regex class with plus), each token is trimmed, and empty tokens
are discarded; the survivors are the search keywords. -/
def keywords (resp : Str) : List Str :=
  ((splitPlus (fun c => c == '\n' || c == ',') resp).map jsTrim).filter
    (fun k => decide (k ≠ []))

/-- Kinds of errors a search.messages call can throw.  auth stands for
an authorization or membership-type error, the kind for which the spec
prescribes a join-and-retry recovery. -/
inductive SearchErr where
  | auth
  | other
deriving DecidableEq

/-- Outcome of one client.search.messages call: a response whose
messages.matches field is present, a response without that field, or a
thrown error. -/
inductive SearchResult where
  | ok (hits : List MessageHit)
  | missing
  | err (e : SearchErr)
deriving DecidableEq

/-- External API calls observable in the embedded fragments. -/
inductive Event where
  | searchCall (query : Str) (count : Nat)
  | joinCall
  | historyCall (limit : Nat)
deriving DecidableEq

/-- Lines 230-246: one iteration of the keyword loop.  The try block
issues exactly one search.messages call with count 20; a response with
matches extends allResults, a response without matches is only logged,
and a thrown error of any kind is only logged too — the catch block
contains no recovery action and no retry. -/
def searchStep (search : Str → SearchResult) (st : List Event × List MessageHit)
    (keyword : Str) : List Event × List MessageHit :=
  match search keyword with
  | SearchResult.ok hits => (st.1 ++ [Event.searchCall keyword 20], st.2 ++ hits)
  | SearchResult.missing => (st.1 ++ [Event.searchCall keyword 20], st.2)
  | SearchResult.err _ => (st.1 ++ [Event.searchCall keyword 20], st.2)

/-- The keyword loop of lines 227-246, with its call log. -/
def aggregateT (search : Str → SearchResult) (ks : List Str) :
    List Event × List MessageHit :=
  ks.foldl (searchStep search) ([], [])

/-- The candidate pool allResults accumulated by the keyword loop. -/
def allResults (search : Str → SearchResult) (ks : List Str) : List MessageHit :=
  (aggregateT search ks).2

/-- The search API calls issued by the keyword loop. -/
def aggregateEvents (search : Str → SearchResult) (ks : List Str) : List Event :=
  (aggregateT search ks).1

/-- Hits contributed by one query as the spec words it: a failing query
contributes an empty hit list. -/
def queryHits (search : Str → SearchResult) (k : Str) : List MessageHit :=
  match search k with
  | SearchResult.ok hits => hits
  | SearchResult.missing => []
  | SearchResult.err _ => []

/-- Line 273: parseInt(token.trim()) - 1, with NaN propagating through
the subtraction. -/
def jsParseMinusOne (tok : Str) : Option Int :=
  (parseIntJS (jsTrim tok)).map (fun v => v - 1)

/-- Line 274: the filter keeping an entry iff it is not NaN, at least 0
and below the pool length. -/
def keepIndex (n : Nat) : Option Int → Bool
  | none => false
  | some i => decide (0 ≤ i) && decide (i < (n : Int))

/-- Lines 271-274: the ranking response is split on commas, each token
trimmed, parsed and shifted to 0-based, and entries that are NaN or out
of range are filtered away.  The trailing filterMap id only extracts the
integer values: after the filter every entry is a some (in JS the array
already holds plain numbers at this point). -/
def evaluatedIndexes (resp : Str) (n : Nat) : List Int :=
  (((splitChar ',' resp).map jsParseMinusOne).filter (keepIndex n)).filterMap id

/-- JS array indexing allResults[index] for a possibly negative index:
undefined is modelled as none. -/
def jsIndex (pool : List MessageHit) (index : Int) : Option MessageHit :=
  if 0 ≤ index then pool.get? index.toNat else none

/-- Lines 280-282: store msg under its permalink unless that key is
already present.  uniqueResults is a string-keyed JS object enumerated
in insertion order (permalinks are Slack URLs, never integer-like keys,
so JS object enumeration order is insertion order), modelled as the list
of stored hits in insertion order. -/
def insertStep (acc : List MessageHit) (msg : MessageHit) : List MessageHit :=
  if acc.any (fun m => decide (m.permalink = msg.permalink)) then acc else acc ++ [msg]

/-- Lines 278-283: the forEach over evaluatedIndexes; a missing
allResults[index] fails the truthiness guard and is skipped. -/
def lookupStep (pool : List MessageHit) (acc : List MessageHit) (index : Int) :
    List MessageHit :=
  match jsIndex pool index with
  | none => acc
  | some msg => insertStep acc msg

/-- The object uniqueResults after the forEach of lines 277-283. -/
def uniqueResults (pool : List MessageHit) (idxs : List Int) : List MessageHit :=
  idxs.foldl (lookupStep pool) []

/-- Line 284: Object.values(uniqueResults).slice(0, 15). -/
def results (pool : List MessageHit) (idxs : List Int) : List MessageHit :=
  (uniqueResults pool idxs).take 15

/-- Decimal digit character. -/
def digitChar : Nat → Char
  | 0 => '0'
  | 1 => '1'
  | 2 => '2'
  | 3 => '3'
  | 4 => '4'
  | 5 => '5'
  | 6 => '6'
  | 7 => '7'
  | 8 => '8'
  | _ => '9'

/-- Fuelled decimal rendering helper. -/
def natToStrGo : Nat → Nat → Str → Str
  | 0, _, acc => acc
  | fuel + 1, n, acc =>
    if n < 10 then digitChar n :: acc
    else natToStrGo fuel (n / 10) (digitChar (n % 10) :: acc)

/-- Decimal rendering of the position number interpolated into the
template literal. -/
def natToStr (n : Nat) : Str := natToStrGo (n + 1) n []

/-- Lines 292-294, one line of the template literal: the 1-based
position, the first thirty characters of the text, then the ellipsis
marker — appended unconditionally by the template — and the permalink
wrapped as a Slack link. -/
def formatLine (idx : Nat) (msg : MessageHit) : Str :=
  natToStr (idx + 1) ++ str ". " ++ msg.text.take 30 ++ str "… → <" ++
    msg.permalink ++ str "|リンク>"

/-- JS Array.prototype.map with the element index as second callback
argument, started at a given index. -/
def mapWithIdx (f : Nat → MessageHit → Str) (startIdx : Nat) :
    List MessageHit → List Str
  | [] => []
  | m :: ms => f startIdx m :: mapWithIdx f (startIdx + 1) ms

/-- JS Array.prototype.join. -/
def jsJoin (sep : Str) : List Str → Str
  | [] => []
  | s :: rest =>
    match rest with
    | [] => s
    | _ :: _ => s ++ sep ++ jsJoin sep rest

/-- Lines 292-294: the user-facing text listing the final results. -/
def responseText (l : List MessageHit) : Str :=
  jsJoin (str "\n") (mapWithIdx formatLine 0 l)

/-- Observable outcome of the fuzzy-search branch: the usage hint of
line 187, the no-results message of line 287, the formatted result list
of line 295, or falling through to the generic LLM question-answer path
of Scenario 2 (lines 300-328). -/
inductive Outcome where
  | usageHint
  | noResults
  | resultsMsg (res : List MessageHit)
  | fallthroughQA
deriving DecidableEq

/-- Trace of one run of the fuzzy-search branch: whether the expansion
and the ranking completion calls were made, which query string was
interpolated into the prompts, and the outcome. -/
structure RunTrace where
  expansionCalled : Bool
  rankingCalled : Bool
  queryUsed : Option Str
  outcome : Outcome
deriving DecidableEq

/-- Oracles for the two completion calls and the search API. -/
structure Env where
  expansionResponse : Str
  search : Str → SearchResult
  rankingResponse : Str

/-- Lines 184-190: message.text.split on the colon; fewer than two parts
trigger the usage hint, otherwise the query is the trimmed parts[1]. -/
def extractQuery (text : Str) : Option Str :=
  let parts := splitChar ':' text
  if parts.length < 2 then none
  else some (jsTrim (parts.getD 1 []))

/-- Lines 184-298: the fuzzy-search branch of the userMessage handler.
The branch is guarded by message.text.startsWith against the command
label; with no colon it replies with the usage hint before any
completion call; otherwise it calls the expansion completion, runs the
keyword loop, and only when the pool is non-empty calls the ranking
completion and formats (or reports no results); an empty pool falls
through past line 298 into the generic question-answer path. -/
def runFuzzy (env : Env) (text : Str) : RunTrace :=
  if (str "Fuzzy search").isPrefixOf text then
    match extractQuery text with
    | none =>
      { expansionCalled := false, rankingCalled := false, queryUsed := none,
        outcome := Outcome.usageHint }
    | some query =>
      let ks := keywords env.expansionResponse
      let pool := allResults env.search ks
      if 0 < pool.length then
        let res := results pool (evaluatedIndexes env.rankingResponse pool.length)
        if res.length = 0 then
          { expansionCalled := true, rankingCalled := true, queryUsed := some query,
            outcome := Outcome.noResults }
        else
          { expansionCalled := true, rankingCalled := true, queryUsed := some query,
            outcome := Outcome.resultsMsg res }
      else
        { expansionCalled := true, rankingCalled := false, queryUsed := some query,
          outcome := Outcome.fallthroughQA }
  else
    { expansionCalled := false, rankingCalled := false, queryUsed := none,
      outcome := Outcome.fallthroughQA }

/-- Errors a conversations.history call can throw; notInChannel models
the not_in_channel error code. -/
inductive HistErr where
  | notInChannel
  | other
deriving DecidableEq

/-- What the channel-summary path ends up with for channelHistory. -/
inductive HistoryOutcome (α : Type) where
  | got (h : α)
  | loggedError
  | thrown

/-- Lines 140-157, the channel-summary history fetch (this is the only
place in src/app.js with a recovery-and-retry: on a not_in_channel
error the bot joins the channel and retries once with limit 10; any
other error is only logged; an error of the retry itself propagates to
the outer catch). -/
def fetchChannelHistory {α : Type} (hist : Nat → Except HistErr α) :
    List Event × HistoryOutcome α :=
  match hist 50 with
  | Except.ok h => ([Event.historyCall 50], HistoryOutcome.got h)
  | Except.error HistErr.notInChannel =>
    match hist 10 with
    | Except.ok h =>
      ([Event.historyCall 50, Event.joinCall, Event.historyCall 10],
        HistoryOutcome.got h)
    | Except.error _ =>
      ([Event.historyCall 50, Event.joinCall, Event.historyCall 10],
        HistoryOutcome.thrown)
  | Except.error HistErr.other => ([Event.historyCall 50], HistoryOutcome.loggedError)

/-- The deduplication walk as the spec words it: walk the referenced
hits in order and keep a hit iff its permalink has not been kept
before. -/
def dedupSpec (seen : List Str) : List MessageHit → List MessageHit
  | [] => []
  | m :: ms =>
    if m.permalink ∈ seen then dedupSpec seen ms
    else m :: dedupSpec (m.permalink :: seen) ms

/-- One presenter line as the amended claim words it: 1-based position,
the first-thirty-character snippet, the ellipsis marker appended
unconditionally, and the permalink as a link. -/
def lineSpec (pos : Nat) (msg : MessageHit) : Str :=
  natToStr pos ++ str ". " ++ msg.text.take 30 ++ str "…" ++ str " → <" ++
    msg.permalink ++ str "|リンク>"

/-- The presenter output as the amended claim words it, with an explicit
1-based position counter. -/
def presenterSpec (pos : Nat) : List MessageHit → Str
  | [] => []
  | msg :: rest =>
    match rest with
    | [] => lineSpec pos msg
    | _ :: _ => lineSpec pos msg ++ str "\n" ++ presenterSpec (pos + 1) rest

/-- Concrete pool for the C1 witness (the worked example of spec §8.6). -/
def c1Pool : List MessageHit := [⟨str "a", str "p1"⟩, ⟨str "b", str "p2"⟩]

/-- Concrete validated index sequence for the C1 witness. -/
def c1Idxs : List Int := [1, 0, 0]

/-- Search oracle for the C3 witness: of the five expanded queries, b
and d fail, the rest return one hit each. -/
def c3Search : Str → SearchResult := fun k =>
  if k = str "b" then SearchResult.err SearchErr.other
  else if k = str "d" then SearchResult.err SearchErr.auth
  else SearchResult.ok [⟨str "hello", k⟩]

/-- Environment for the C3 witness. -/
def c3Env : Env := ⟨str "a,b,c,d,e", c3Search, str "1"⟩

/-- Message text used by several witnesses. -/
def fuzzyText : Str := str "Fuzzy search: x"

/-- Environment in which every search call fails. -/
def c4Env : Env := ⟨str "a", fun _ => SearchResult.err SearchErr.other, str ""⟩

/-- Environment for the C5 counterexample and witness. -/
def c5Env : Env := ⟨str "", fun _ => SearchResult.err SearchErr.other, str ""⟩

/-- Search oracle failing with an authorization-type error. -/
def c6Search : Str → SearchResult := fun _ => SearchResult.err SearchErr.auth

/-- History oracle whose first (limit 50) call reports not_in_channel. -/
def c6Hist : Nat → Except HistErr Nat := fun n =>
  if n = 50 then Except.error HistErr.notInChannel else Except.ok 0

/-- Expansion response with eleven tokens for the C7 counterexample. -/
def c7Resp : Str := str "a,b,c,d,e,f,g,h,i,j,k"

/-- Short hit for the C9 counterexample: two characters, far below the
thirty-character budget. -/
def c9Hit : MessageHit := ⟨str "hi", str "p"⟩

/-- Environment for the C10 witness. -/
def c10Env : Env := ⟨str "k", fun _ => SearchResult.err SearchErr.other, str ""⟩

/-! Helper lemmas. -/

/-- A lookup succeeds for every index in a list shorter than its length. -/
theorem get?_isSome_of_lt {α : Type} : ∀ (l : List α) (n : Nat),
    n < l.length → (l.get? n).isSome := by
  intro l
  induction l with
  | nil => intro n h; simp at h
  | cons a l ih =>
    intro n h
    cases n with
    | zero => rfl
    | succ m => exact ih m (by simpa using h)

/-- jsIndex succeeds on a validated index. -/
theorem jsIndex_isSome (pool : List MessageHit) (i : Int)
    (h0 : 0 ≤ i) (hl : i < (pool.length : Int)) : (jsIndex pool i).isSome := by
  rw [jsIndex, if_pos h0]
  exact get?_isSome_of_lt pool i.toNat (by omega)

/-- A hit produced by jsIndex belongs to the pool. -/
theorem jsIndex_mem {pool : List MessageHit} {i : Int} {m : MessageHit}
    (h : jsIndex pool i = some m) : m ∈ pool := by
  rw [jsIndex] at h
  split at h
  · exact List.get?_mem h
  · cases h

/-- filterMap keeps the full length when the function always succeeds. -/
theorem length_filterMap_of_isSome {α β : Type} (f : α → Option β) :
    ∀ l : List α, (∀ a ∈ l, (f a).isSome) → (l.filterMap f).length = l.length := by
  intro l
  induction l with
  | nil => intro _; rfl
  | cons a l ih =>
    intro h
    have ha := h a (List.mem_cons_self a l)
    cases hf : f a with
    | none => rw [hf] at ha; simp at ha
    | some b =>
      rw [List.filterMap_cons, hf]
      simpa using ih (fun x hx => h x (List.mem_cons_of_mem _ hx))

/-- Folding the forEach body equals folding the insertion step over the
successfully referenced hits. -/
theorem foldl_lookupStep (pool : List MessageHit) :
    ∀ (l : List Int) (init : List MessageHit),
      l.foldl (lookupStep pool) init = (l.filterMap (jsIndex pool)).foldl insertStep init := by
  intro l
  induction l with
  | nil => intro init; rfl
  | cons a l ih =>
    intro init
    rw [List.foldl_cons, List.filterMap_cons]
    cases h : jsIndex pool a with
    | none => simp only [lookupStep, h]; exact ih init
    | some b => simp only [lookupStep, h]; rw [List.foldl_cons]; exact ih _

/-- The dedup walk only depends on the membership of the seen set. -/
theorem dedupSpec_congr : ∀ (l : List MessageHit) (s₁ s₂ : List Str),
    (∀ p, p ∈ s₁ ↔ p ∈ s₂) → dedupSpec s₁ l = dedupSpec s₂ l := by
  intro l
  induction l with
  | nil => intro s₁ s₂ _; rfl
  | cons m ms ih =>
    intro s₁ s₂ h
    by_cases hm : m.permalink ∈ s₁
    · rw [dedupSpec, dedupSpec, if_pos hm, if_pos ((h _).mp hm)]
      exact ih _ _ h
    · rw [dedupSpec, dedupSpec, if_neg hm, if_neg (fun hx => hm ((h _).mpr hx))]
      refine congrArg _ (ih _ _ ?_)
      intro p
      simp only [List.mem_cons]
      exact or_congr Iff.rfl (h p)

/-- Folding the insertion step is the first-occurrence-wins dedup walk. -/
theorem foldl_insertStep : ∀ (l : List MessageHit) (acc : List MessageHit),
    l.foldl insertStep acc = acc ++ dedupSpec (acc.map (fun m => m.permalink)) l := by
  intro l
  induction l with
  | nil => intro acc; simp [dedupSpec]
  | cons m ms ih =>
    intro acc
    by_cases h : acc.any (fun x => decide (x.permalink = m.permalink)) = true
    · have hmem : m.permalink ∈ acc.map (fun x => x.permalink) := by
        rcases List.any_eq_true.mp h with ⟨x, hx, hxe⟩
        have hxe' : x.permalink = m.permalink := of_decide_eq_true hxe
        exact hxe' ▸ List.mem_map_of_mem _ hx
      rw [List.foldl_cons]
      have hstep : insertStep acc m = acc := by rw [insertStep, if_pos h]
      rw [hstep, ih, dedupSpec, if_pos hmem]
    · have hmem : m.permalink ∉ acc.map (fun x => x.permalink) := by
        intro hx
        rcases List.mem_map.mp hx with ⟨x, hx1, hx2⟩
        exact h (List.any_eq_true.mpr ⟨x, hx1, decide_eq_true hx2⟩)
      rw [List.foldl_cons]
      have hstep : insertStep acc m = acc ++ [m] := by rw [insertStep, if_neg h]
      rw [hstep, ih, dedupSpec, if_neg hmem]
      have hcongr : dedupSpec ((acc ++ [m]).map (fun x => x.permalink)) ms
          = dedupSpec (m.permalink :: acc.map (fun x => x.permalink)) ms := by
        refine dedupSpec_congr ms _ _ ?_
        intro p
        simp [List.mem_append, List.mem_cons, or_comm]
      rw [hcongr]
      simp

/-- Every hit kept by the dedup walk comes from the walked list. -/
theorem dedupSpec_mem : ∀ (l : List MessageHit) (seen : List Str) (m : MessageHit),
    m ∈ dedupSpec seen l → m ∈ l := by
  intro l
  induction l with
  | nil => intro seen m h; simp [dedupSpec] at h
  | cons x xs ih =>
    intro seen m h
    rw [dedupSpec] at h
    by_cases hx : x.permalink ∈ seen
    · rw [if_pos hx] at h
      exact List.mem_cons_of_mem _ (ih _ _ h)
    · rw [if_neg hx] at h
      rcases List.mem_cons.mp h with h | h
      · exact h ▸ List.mem_cons_self _ _
      · exact List.mem_cons_of_mem _ (ih _ _ h)

/-- The dedup walk yields pairwise distinct permalinks, none of them
already seen. -/
theorem dedupSpec_nodup : ∀ (l : List MessageHit) (seen : List Str),
    ((dedupSpec seen l).map (fun m => m.permalink)).Nodup ∧
      ∀ p ∈ (dedupSpec seen l).map (fun m => m.permalink), p ∉ seen := by
  intro l
  induction l with
  | nil => intro seen; simp [dedupSpec]
  | cons x xs ih =>
    intro seen
    by_cases hx : x.permalink ∈ seen
    · rw [dedupSpec, if_pos hx]
      exact ih seen
    · rw [dedupSpec, if_neg hx]
      have ihc := ih (x.permalink :: seen)
      constructor
      · rw [List.map_cons, List.nodup_cons]
        exact ⟨fun hmem => (ihc.2 _ hmem) (List.mem_cons_self _ _), ihc.1⟩
      · intro p hp
        rw [List.map_cons, List.mem_cons] at hp
        rcases hp with hp | hp
        · exact hp ▸ hx
        · exact fun hseen => (ihc.2 _ hp) (List.mem_cons_of_mem _ hseen)

/-- uniqueResults is exactly the dedup walk over the referenced hits. -/
theorem uniqueResults_eq_dedupSpec (pool : List MessageHit) (idxs : List Int) :
    uniqueResults pool idxs = dedupSpec [] (idxs.filterMap (jsIndex pool)) := by
  rw [uniqueResults, foldl_lookupStep, foldl_insertStep]
  simp

/-- Claim C1: for every candidate pool and validated 0-based index
sequence, the final result is built by walking the index sequence in
order with first-occurrence-wins permalink deduplication (up to the
slice at 15); every index references a hit, the result is a subset of
the pool, and permalinks are pairwise distinct (so the order is the
order of first references). -/
theorem c1_dedup_first_occurrence (pool : List MessageHit) (idxs : List Int)
    (hvalid : ∀ i ∈ idxs, 0 ≤ i ∧ i < (pool.length : Int)) :
    results pool idxs = (dedupSpec [] (idxs.filterMap (jsIndex pool))).take 15
    ∧ (idxs.filterMap (jsIndex pool)).length = idxs.length
    ∧ (∀ m ∈ results pool idxs, m ∈ pool)
    ∧ ((results pool idxs).map (fun m => m.permalink)).Nodup := by
  have hwalk : uniqueResults pool idxs = dedupSpec [] (idxs.filterMap (jsIndex pool)) :=
    uniqueResults_eq_dedupSpec pool idxs
  refine ⟨by rw [results, hwalk], ?_, ?_, ?_⟩
  · exact length_filterMap_of_isSome _ _
      (fun i hi => jsIndex_isSome pool i (hvalid i hi).1 (hvalid i hi).2)
  · intro m hm
    rw [results, hwalk] at hm
    have hm' := List.mem_of_mem_take hm
    rcases List.mem_filterMap.mp (dedupSpec_mem _ _ _ hm') with ⟨i, _, hji⟩
    exact jsIndex_mem hji
  · rw [results, hwalk]
    have h1 := (dedupSpec_nodup (idxs.filterMap (jsIndex pool)) []).1
    exact h1.sublist (List.Sublist.map _ (List.take_sublist _ _))

/-- Witness for C1 at the worked example of spec §8.6: pool of two hits,
ranker output 2, 1, 1. -/
theorem c1_dedup_first_occurrence_witness :
    (∀ i ∈ c1Idxs, 0 ≤ i ∧ i < (c1Pool.length : Int))
    ∧ (results c1Pool c1Idxs = (dedupSpec [] (c1Idxs.filterMap (jsIndex c1Pool))).take 15
      ∧ (c1Idxs.filterMap (jsIndex c1Pool)).length = c1Idxs.length
      ∧ (∀ m ∈ results c1Pool c1Idxs, m ∈ c1Pool)
      ∧ ((results c1Pool c1Idxs).map (fun m => m.permalink)).Nodup) :=
  ⟨by decide, c1_dedup_first_occurrence c1Pool c1Idxs (by decide)⟩

/-- The composition of the map at line 273 with the filter at line 274
and the extraction fuses into one pass over the tokens. -/
theorem filter_keep_eq (n : Nat) :
    ∀ l : List (Option Int),
      (l.filter (keepIndex n)).filterMap id
        = l.filterMap (fun r =>
            match r with
            | none => none
            | some i => if 0 ≤ i ∧ i < (n : Int) then some i else none) := by
  intro l
  induction l with
  | nil => rfl
  | cons r l ih =>
    cases r with
    | none =>
      rw [List.filter_cons, List.filterMap_cons]
      simpa [keepIndex] using ih
    | some i =>
      by_cases h : 0 ≤ i ∧ i < (n : Int)
      · have hk : keepIndex n (some i) = true := by
          simp [keepIndex, h.1, h.2]
        simp [List.filter_cons, hk, List.filterMap_cons, if_pos h, ih]
      · have hk : keepIndex n (some i) = false := by
          simp only [keepIndex, Bool.and_eq_false_iff, decide_eq_false_iff_not]
          omega
        simp [List.filter_cons, hk, if_neg h, ih]

/-- Claim C2: index parsing splits the ranking response on commas, trims
and integer-parses each token, shifts it to 0-based, and keeps exactly
the tokens that parse and whose value lies in [1, n] 1-based, in the
original token order. -/
theorem c2_index_parsing (resp : Str) (n : Nat) :
    evaluatedIndexes resp n
      = (splitChar ',' resp).filterMap (fun tok =>
          match parseIntJS (jsTrim tok) with
          | none => none
          | some v => if 1 ≤ v ∧ v ≤ (n : Int) then some (v - 1) else none) := by
  rw [evaluatedIndexes, filter_keep_eq, List.filterMap_map]
  congr 1
  funext tok
  show (match jsParseMinusOne tok with
    | none => none
    | some i => if 0 ≤ i ∧ i < (n : Int) then some i else none)
    = _
  rw [jsParseMinusOne]
  cases h : parseIntJS (jsTrim tok) with
  | none => rfl
  | some v =>
    simp only [Option.map_some']
    by_cases hv : 1 ≤ v ∧ v ≤ (n : Int)
    · rw [if_pos (by omega), if_pos hv]
    · rw [if_neg (by omega), if_neg hv]

/-- Unrolling the keyword loop: the call log is one search per keyword
with count 20 and the pool is the concatenation of the per-query hits in
keyword order. -/
theorem foldl_searchStep (search : Str → SearchResult) :
    ∀ (ks : List Str) (st : List Event × List MessageHit),
      ks.foldl (searchStep search) st
        = (st.1 ++ ks.map (fun k => Event.searchCall k 20),
           st.2 ++ (ks.map (fun k => queryHits search k)).flatten) := by
  intro ks
  induction ks with
  | nil => intro st; simp
  | cons k ks ih =>
    intro st
    rw [List.foldl_cons, ih]
    cases h : search k <;>
      simp [searchStep, queryHits, h, List.append_assoc]

/-- The candidate pool is the concatenation of per-query hit lists. -/
theorem allResults_eq_flatten (search : Str → SearchResult) (ks : List Str) :
    allResults search ks = (ks.map (fun k => queryHits search k)).flatten := by
  rw [allResults, aggregateT, foldl_searchStep]
  simp

/-- The keyword loop issues exactly one search call per keyword, always
with count 20, whatever the outcomes are. -/
theorem aggregateEvents_eq_map (search : Str → SearchResult) (ks : List Str) :
    aggregateEvents search ks = ks.map (fun k => Event.searchCall k 20) := by
  rw [aggregateEvents, aggregateT, foldl_searchStep]
  simp

/-- Unfolding of the fuzzy branch once the label matched and a query was
extracted: the expansion call is made, and the pool decides between the
ranking stage and the fall-through. -/
theorem runFuzzy_proceed (env : Env) (text : Str) (q : Str)
    (hpref : (str "Fuzzy search").isPrefixOf text = true)
    (hq : extractQuery text = some q) :
    runFuzzy env text =
      (if 0 < (allResults env.search (keywords env.expansionResponse)).length then
        if (results (allResults env.search (keywords env.expansionResponse))
            (evaluatedIndexes env.rankingResponse
              (allResults env.search (keywords env.expansionResponse)).length)).length = 0 then
          { expansionCalled := true, rankingCalled := true, queryUsed := some q,
            outcome := Outcome.noResults }
        else
          { expansionCalled := true, rankingCalled := true, queryUsed := some q,
            outcome := Outcome.resultsMsg
              (results (allResults env.search (keywords env.expansionResponse))
                (evaluatedIndexes env.rankingResponse
                  (allResults env.search (keywords env.expansionResponse)).length)) }
      else
        { expansionCalled := true, rankingCalled := false, queryUsed := some q,
          outcome := Outcome.fallthroughQA }) := by
  rw [runFuzzy, if_pos hpref, hq]

/-- Claim C3: search aggregation does not abort on per-query failures;
the pool is the concatenation, in query order, of the hits of the
successful queries (failing queries contributing empty lists), and with
a non-empty pool the pipeline proceeds to the ranking call. -/
theorem c3_partial_failure_tolerance (env : Env) (text : Str) (q : Str)
    (hpref : (str "Fuzzy search").isPrefixOf text = true)
    (hq : extractQuery text = some q)
    (hpool : allResults env.search (keywords env.expansionResponse) ≠ []) :
    allResults env.search (keywords env.expansionResponse)
      = ((keywords env.expansionResponse).map (fun k => queryHits env.search k)).flatten
    ∧ (runFuzzy env text).rankingCalled = true := by
  refine ⟨allResults_eq_flatten env.search (keywords env.expansionResponse), ?_⟩
  have hlen : 0 < (allResults env.search (keywords env.expansionResponse)).length :=
    List.length_pos.mpr hpool
  rw [runFuzzy_proceed env text q hpref hq, if_pos hlen]
  split <;> rfl

/-- Witness for C3: five expanded queries of which two fail; the pool
holds the three successful hits and ranking is invoked. -/
theorem c3_partial_failure_tolerance_witness :
    ((str "Fuzzy search").isPrefixOf fuzzyText = true
      ∧ extractQuery fuzzyText = some (str "x")
      ∧ allResults c3Env.search (keywords c3Env.expansionResponse) ≠ [])
    ∧ (allResults c3Env.search (keywords c3Env.expansionResponse)
        = ((keywords c3Env.expansionResponse).map (fun k => queryHits c3Env.search k)).flatten
      ∧ (runFuzzy c3Env fuzzyText).rankingCalled = true) :=
  ⟨⟨by decide, by decide, by decide⟩,
    c3_partial_failure_tolerance c3Env fuzzyText (str "x") (by decide) (by decide) (by decide)⟩

/-- Counterexample to C4 as stated: with every search call failing the
pool is empty and the ranking completion is indeed never invoked, but
the outcome is the fall-through to the generic question-answer path of
Scenario 2, not the designated no-results message. -/
theorem c4_empty_pool_counterexample :
    runFuzzy c4Env fuzzyText
      = { expansionCalled := true, rankingCalled := false, queryUsed := some (str "x"),
          outcome := Outcome.fallthroughQA }
    ∧ Outcome.fallthroughQA ≠ Outcome.noResults :=
  ⟨by decide, by decide⟩

/-- Claim C4 (amended): when the candidate pool is empty the ranking
stage is never invoked, but the user does not receive the no-results
message — the handler falls through to the generic question-answer
path. -/
theorem c4_empty_pool_no_ranking (env : Env) (text : Str) (q : Str)
    (hpref : (str "Fuzzy search").isPrefixOf text = true)
    (hq : extractQuery text = some q)
    (hpool : allResults env.search (keywords env.expansionResponse) = []) :
    (runFuzzy env text).rankingCalled = false
    ∧ (runFuzzy env text).outcome = Outcome.fallthroughQA := by
  have hlen : ¬ 0 < (allResults env.search (keywords env.expansionResponse)).length := by
    rw [hpool]
    simp
  rw [runFuzzy_proceed env text q hpref hq, if_neg hlen]
  exact ⟨rfl, rfl⟩

/-- Witness for the amended C4 at a run in which every search fails. -/
theorem c4_empty_pool_no_ranking_witness :
    ((str "Fuzzy search").isPrefixOf fuzzyText = true
      ∧ extractQuery fuzzyText = some (str "x")
      ∧ allResults c4Env.search (keywords c4Env.expansionResponse) = [])
    ∧ ((runFuzzy c4Env fuzzyText).rankingCalled = false
      ∧ (runFuzzy c4Env fuzzyText).outcome = Outcome.fallthroughQA) :=
  ⟨⟨by decide, by decide, by decide⟩,
    c4_empty_pool_no_ranking c4Env fuzzyText (str "x") (by decide) (by decide) (by decide)⟩

/-- Counterexample to C5 as stated: the message consisting of the label
and a bare colon leaves no non-empty query, yet the handler does not
reply with the usage hint — it proceeds and makes the expansion
completion call with an empty query. -/
theorem c5_empty_query_counterexample :
    extractQuery (str "Fuzzy search:") = some []
    ∧ (runFuzzy c5Env (str "Fuzzy search:")).expansionCalled = true
    ∧ (runFuzzy c5Env (str "Fuzzy search:")).outcome ≠ Outcome.usageHint :=
  ⟨by decide, by decide, by decide⟩

/-- Claim C5 (amended): the usage hint is returned, before any
completion call, exactly when the message contains no colon at all
(fewer than two colon-split parts); a present-but-empty remainder
instead proceeds into the pipeline. -/
theorem c5_no_colon_usage_hint (env : Env) (text : Str)
    (hpref : (str "Fuzzy search").isPrefixOf text = true)
    (hno : extractQuery text = none) :
    runFuzzy env text
      = { expansionCalled := false, rankingCalled := false, queryUsed := none,
          outcome := Outcome.usageHint } := by
  rw [runFuzzy, if_pos hpref, hno]

/-- Witness for the amended C5 at a colon-free fuzzy-search message. -/
theorem c5_no_colon_usage_hint_witness :
    ((str "Fuzzy search").isPrefixOf (str "Fuzzy search x") = true
      ∧ extractQuery (str "Fuzzy search x") = none)
    ∧ runFuzzy c5Env (str "Fuzzy search x")
        = { expansionCalled := false, rankingCalled := false, queryUsed := none,
            outcome := Outcome.usageHint } :=
  ⟨⟨by decide, by decide⟩, c5_no_colon_usage_hint c5Env _ (by decide) (by decide)⟩

/-- Counterexample to C6 as stated: an expanded query whose search call
fails with the authorization-type error gets no recovery action and no
retry — the loop issues exactly one search call with count 20, never a
join and never a second call with the reduced limit 10. -/
theorem c6_no_retry_counterexample :
    aggregateEvents c6Search [str "q"] = [Event.searchCall (str "q") 20]
    ∧ Event.joinCall ∉ aggregateEvents c6Search [str "q"]
    ∧ Event.searchCall (str "q") 10 ∉ aggregateEvents c6Search [str "q"] :=
  ⟨by decide, by decide, by decide⟩

/-- Claim C6 (amended): the fuzzy-search keyword loop performs exactly
one search call per query with count 20 whatever the outcome; the
join-and-retry-once-with-limit-10 recovery exists only in the
channel-summary history fetch, where a not_in_channel error triggers
exactly one join and one retry with limit 10. -/
theorem c6_retry_location {α : Type} (search : Str → SearchResult) (ks : List Str)
    (hist : Nat → Except HistErr α)
    (h50 : hist 50 = Except.error HistErr.notInChannel) :
    aggregateEvents search ks = ks.map (fun k => Event.searchCall k 20)
    ∧ (fetchChannelHistory hist).1
        = [Event.historyCall 50, Event.joinCall, Event.historyCall 10] := by
  refine ⟨aggregateEvents_eq_map search ks, ?_⟩
  rw [fetchChannelHistory, h50]
  cases hist 10 <;> rfl

/-- Witness for the amended C6: auth-failing search oracle and a history
oracle reporting not_in_channel at limit 50. -/
theorem c6_retry_location_witness :
    c6Hist 50 = Except.error HistErr.notInChannel
    ∧ (aggregateEvents c6Search [str "q"]
        = [str "q"].map (fun k => Event.searchCall k 20)
      ∧ (fetchChannelHistory c6Hist).1
          = [Event.historyCall 50, Event.joinCall, Event.historyCall 10]) :=
  ⟨rfl, c6_retry_location c6Search [str "q"] c6Hist rfl⟩

/-- Counterexample to C7 as stated: an expansion response with eleven
comma-separated tokens yields eleven keywords — the parser applies no
cap of 10 (the cap exists only as an instruction inside the expansion
prompt). -/
theorem c7_cap_counterexample :
    (keywords c7Resp).length = 11 ∧ ¬ (keywords c7Resp).length ≤ 10 :=
  ⟨by decide, by decide⟩

/-- Trimming then discarding empties erases the difference between the
collapsed interior and the raw chunk list. -/
theorem filter_map_trim_collapseInner : ∀ l : List Str,
    ((collapseInner l).map jsTrim).filter (fun k => decide (k ≠ []))
      = (l.map jsTrim).filter (fun k => decide (k ≠ [])) := by
  intro l
  induction l with
  | nil => rfl
  | cons t rest ih =>
    cases rest with
    | nil => rfl
    | cons r rs =>
      by_cases ht : t = []
      · subst ht
        have hcol : collapseInner ([] :: r :: rs) = collapseInner (r :: rs) := rfl
        have hnil : jsTrim ([] : Str) = [] := rfl
        rw [hcol, ih]
        simp [List.filter_cons, hnil]
      · have hcol : collapseInner (t :: r :: rs) = t :: collapseInner (r :: rs) := by
          simp only [collapseInner]
          rw [if_neg ht]
        rw [hcol]
        simp only [List.map_cons, List.filter_cons, ih]

/-- The keyword parse is insensitive to the separator-run collapsing:
it equals a plain split on newlines and commas followed by trimming and
discarding empty tokens. -/
theorem keywords_eq_splitAny (resp : Str) :
    keywords resp
      = ((splitAny (fun c => c == '\n' || c == ',') resp).map jsTrim).filter
          (fun k => decide (k ≠ [])) := by
  rw [keywords, splitPlus]
  generalize splitAny (fun c => c == '\n' || c == ',') resp = l
  cases l with
  | nil => rfl
  | cons t rest =>
    cases rest with
    | nil => rfl
    | cons r rs =>
      simp only [collapseEmpty, List.map_cons, List.filter_cons,
        filter_map_trim_collapseInner]

/-- Claim C7 (amended): the expanded-query list is obtained by splitting
the response on newlines and commas, trimming each token and discarding
empty tokens in order; every kept keyword is non-empty.  No cap is
applied by the parser (see the counterexample for the dropped cap-of-10
conjunct). -/
theorem c7_split_trim_discard (resp : Str) :
    keywords resp
      = ((splitAny (fun c => c == '\n' || c == ',') resp).map jsTrim).filter
          (fun k => decide (k ≠ []))
    ∧ ∀ k ∈ keywords resp, k ≠ [] := by
  refine ⟨keywords_eq_splitAny resp, ?_⟩
  intro k hk
  rw [keywords] at hk
  exact of_decide_eq_true (List.mem_filter.mp hk).2

/-- Counterexample to C9 as stated: a two-character text is far below
the thirty-character budget, yet the formatted line carries the ellipsis
marker — it is appended unconditionally, not only when truncation
happened. -/
theorem c9_ellipsis_counterexample :
    responseText [c9Hit] = str "1. hi… → <p|リンク>"
    ∧ c9Hit.text.length ≤ 30
    ∧ '…' ∈ responseText [c9Hit] :=
  ⟨by decide, by decide, by decide⟩

/-- The template line of the code equals the amended-claim line shape. -/
theorem formatLine_eq_lineSpec (k : Nat) (m : MessageHit) :
    formatLine k m = lineSpec (k + 1) m := by
  rw [formatLine, lineSpec]
  have h : str "…" ++ str " → <" = str "… → <" := by decide
  rw [← h]
  simp [List.append_assoc]

/-- Joining the indexed map is the position-counting presenter. -/
theorem jsJoin_mapWithIdx : ∀ (l : List MessageHit) (k : Nat),
    jsJoin (str "\n") (mapWithIdx formatLine k l) = presenterSpec (k + 1) l := by
  intro l
  induction l with
  | nil => intro k; rfl
  | cons m rest ih =>
    intro k
    cases rest with
    | nil => exact formatLine_eq_lineSpec k m
    | cons r rs =>
      show formatLine k m ++ str "\n"
            ++ jsJoin (str "\n") (mapWithIdx formatLine (k + 1) (r :: rs))
          = lineSpec (k + 1) m ++ str "\n" ++ presenterSpec (k + 1 + 1) (r :: rs)
      rw [ih (k + 1), formatLine_eq_lineSpec]

/-- Claim C9 (amended): the presenter output is a pure function of the
result list — one line per result made of the 1-based position, the
first-thirty-character snippet, the ellipsis marker appended
unconditionally, and the permalink. -/
theorem c9_presenter_shape (l : List MessageHit) :
    responseText l = presenterSpec 1 l :=
  jsJoin_mapWithIdx l 0

/-- Splitting a string whose prefix is separator-free peels off that
prefix as the first chunk. -/
theorem splitAny_sep : ∀ (a : Str) (p : Char → Bool) (c0 : Char) (rest : Str),
    p c0 = true → (∀ x ∈ a, p x = false) →
    splitAny p (a ++ c0 :: rest) = a :: splitAny p rest := by
  intro a
  induction a with
  | nil =>
    intro p c0 rest hc _
    simp only [List.nil_append, splitAny, hc, if_true]
  | cons x a ih =>
    intro p c0 rest hc ha
    have hx : p x = false := ha x (List.mem_cons_self _ _)
    have ht := ih p c0 rest hc (fun y hy => ha y (List.mem_cons_of_mem _ hy))
    simp only [List.cons_append, splitAny, hx, Bool.false_eq_true, if_false,
      List.append_eq, ht]

/-- A prefix of a list is a prefix of any extension of it. -/
theorem isPrefixOf_append {l a : Str} (rest : Str) (h : l.isPrefixOf a = true) :
    l.isPrefixOf (a ++ rest) = true := by
  rw [List.isPrefixOf_iff_prefix] at h ⊢
  exact h.trans (List.prefix_append a rest)

/-- With a colon-free command part and a colon-free middle segment, the
extracted query is exactly the trimmed middle segment. -/
theorem extractQuery_two_colons (a b c : Str) (ha : ':' ∉ a) (hb : ':' ∉ b) :
    extractQuery (a ++ ':' :: (b ++ ':' :: c)) = some (jsTrim b) := by
  have hpa : ∀ x ∈ a, (x == ':') = false := fun x hx =>
    beq_eq_false_iff_ne.mpr (fun e => ha (e ▸ hx))
  have hpb : ∀ x ∈ b, (x == ':') = false := fun x hx =>
    beq_eq_false_iff_ne.mpr (fun e => hb (e ▸ hx))
  have h1 : splitChar ':' (a ++ ':' :: (b ++ ':' :: c)) = a :: b :: splitChar ':' c := by
    rw [splitChar, splitAny_sep a _ _ _ (by simp) hpa,
      splitAny_sep b _ _ _ (by simp) hpb]
    rfl
  rw [extractQuery]
  simp [h1, List.getD]

/-- Claim C10: in a fuzzy-search message with more than one colon, the
query is only the trimmed segment between the first and the second
colon; everything after the second colon is discarded and the prompts
only ever receive that middle segment. -/
theorem c10_second_colon_discard (env : Env) (a b c : Str)
    (ha : ':' ∉ a) (hb : ':' ∉ b)
    (hpref : (str "Fuzzy search").isPrefixOf a = true) :
    extractQuery (a ++ ':' :: (b ++ ':' :: c)) = some (jsTrim b)
    ∧ (runFuzzy env (a ++ ':' :: (b ++ ':' :: c))).queryUsed = some (jsTrim b) := by
  have hq := extractQuery_two_colons a b c ha hb
  refine ⟨hq, ?_⟩
  have hpref' : (str "Fuzzy search").isPrefixOf (a ++ ':' :: (b ++ ':' :: c)) = true :=
    isPrefixOf_append _ hpref
  rw [runFuzzy_proceed env _ _ hpref' hq]
  split
  · split <;> rfl
  · rfl

/-- Witness for C10 at the message Fuzzy search: foo: bar. -/
theorem c10_second_colon_discard_witness :
    (':' ∉ str "Fuzzy search" ∧ ':' ∉ str " foo"
      ∧ (str "Fuzzy search").isPrefixOf (str "Fuzzy search") = true)
    ∧ (extractQuery (str "Fuzzy search" ++ ':' :: (str " foo" ++ ':' :: str " bar"))
        = some (jsTrim (str " foo"))
      ∧ (runFuzzy c10Env
          (str "Fuzzy search" ++ ':' :: (str " foo" ++ ':' :: str " bar"))).queryUsed
        = some (jsTrim (str " foo"))) :=
  ⟨⟨by decide, by decide, by decide⟩,
    c10_second_colon_discard c10Env (str "Fuzzy search") (str " foo") (str " bar")
      (by decide) (by decide) (by decide)⟩

/-- Claim C8: the final deduplicated result list never exceeds the
configured maximum of 15 entries. -/
theorem c8_truncation_max15 (pool : List MessageHit) (idxs : List Int) :
    (results pool idxs).length ≤ 15 := by
  rw [results]
  exact List.length_take_le 15 _
